import Mathlib

/-!
Verification of the geometry-composition and animation-interpolation core of
the recharts chart library, shallowly embedded in Lean 4.

Numbers are modelled as exact rationals (ℚ); JavaScript `Math.floor` is the
integer floor, and the JS `%` operator (truncated remainder) is modelled
explicitly.  Arrays become lists, `undefined`/`null` become `Option`, and the
px-suffixed comma-joined dasharray strings are abstracted to their lists of
numeric segment lengths.
-/

namespace Recharts

/-- Modelled from the spec: the sign function used in
`deltaAngle = sign(end − start) × min(|end − start|, 360)`
(the helper `mathSign` of `util/DataUtils`, outside `src/`):
0 on 0, 1 on positives, −1 on negatives. -/
def mathSign (x : ℚ) : ℚ :=
  if x = 0 then 0 else if x > 0 then 1 else -1

/-- Modelled from the spec: linear interpolation at progress `t`
(the helper `interpolateNumber` of `util/DataUtils`, outside `src/`):
"all interpolation is linear in the progress parameter". -/
def interpolateNumber (a b t : ℚ) : ℚ :=
  a + (b - a) * t

/-- JavaScript truncation toward zero of a rational. -/
def jsTrunc (q : ℚ) : ℤ :=
  if q < 0 then ⌈q⌉ else ⌊q⌋

/-- The JavaScript `%` operator on numbers: truncated remainder,
`a % b = a − b·trunc(a / b)`. -/
def jsMod (a b : ℚ) : ℚ :=
  a - b * jsTrunc (a / b)

/-- JavaScript array indexing with a (possibly negative) integer index:
out-of-range access yields `undefined`, modelled as `none`. -/
def jsGet {α : Type} (l : List α) (i : ℤ) : Option α :=
  if i < 0 then none else l.get? i.toNat

/-! ### Path-Length Reveal Engine (`Line.generateSimpleStrokeDasharray`,
`Line.getStrokeDasharray`, `Line.repeat` of the Line source file)

A dasharray string `"a px, b px, …"` is abstracted to the list `[a, b, …]`
of its numeric segment lengths. -/

/-- `Line.generateSimpleStrokeDasharray`: the no-pattern dasharray
`` `${length}px ${totalLength - length}px` ``, abstracted to its two
numeric segments. -/
def generateSimpleStrokeDasharray (totalLength length : ℚ) : List ℚ :=
  [length, totalLength - length]

/-- `Line.repeat`: pad an odd-length pattern with a trailing 0, then
concatenate `count` copies (a non-positive count yields the empty list,
as the JS `for` loop does). -/
def lineRepeat (lines : List ℚ) (count : ℤ) : List ℚ :=
  let linesUnit := if lines.length % 2 ≠ 0 then lines ++ [0] else lines
  (List.replicate count.toNat linesUnit).flatten

/-- The `for` loop of `Line.getStrokeDasharray` that builds `remainLines`:
walking the pattern with running sum `sum`, the first element with
`sum + lines[i] > remainLength` stops the walk, producing
`lines.slice(0, i) ++ [remainLength − sum]`; if no element triggers, the
loop leaves `remainLines = []` (signalled here by `none`). -/
def remainLinesGo (remainLength : ℚ) : List ℚ → ℚ → Option (List ℚ)
  | [], _ => none
  | x :: rest, sum =>
    if sum + x > remainLength then some [remainLength - sum]
    else (remainLinesGo remainLength rest (sum + x)).map (fun l => x :: l)

/-- `remainLines` as left in scope after the loop of
`Line.getStrokeDasharray` (initial `remainLines = []`). -/
def remainLinesCalc (remainLength : ℚ) (lines : List ℚ) : List ℚ :=
  (remainLinesGo remainLength lines 0).getD []

/-- `Line.getStrokeDasharray length totalLength lines`.  The JS
`lines.reduce((pre, next) => pre + next)` throws on an empty array, so the
empty pattern yields `none`; on a non-empty array it is the plain sum.
`Math.floor` is `⌊·⌋` and `%` is the truncated JS remainder. -/
def getStrokeDasharray (length totalLength : ℚ) (lines : List ℚ) : Option (List ℚ) :=
  if lines = [] then none
  else
    let lineLength := lines.sum
    if lineLength = 0 then some (generateSimpleStrokeDasharray totalLength length)
    else
      let count : ℤ := ⌊length / lineLength⌋
      let remainLength := jsMod length lineLength
      let restLength := totalLength - length
      let remainLines := remainLinesCalc remainLength lines
      let emptyLines := if remainLines.length % 2 = 0 then [0, restLength] else [restLength]
      some (lineRepeat lines count ++ remainLines ++ emptyLines)

/-- The `strokeDasharray`-dependent branch of `Line.renderCurveWithAnimation`
(source lines 453–462): `curLength` interpolates from 0 to `totalLength`, and
the dasharray is either the custom-pattern one or the simple one.  A supplied
pattern is modelled as the already-parsed list of numbers. -/
def revealDasharray (strokeDasharray : Option (List ℚ)) (totalLength t : ℚ) : Option (List ℚ) :=
  let curLength := interpolateNumber 0 totalLength t
  match strokeDasharray with
  | some lines => getStrokeDasharray curLength totalLength lines
  | none => some (generateSimpleStrokeDasharray totalLength curLength)

/-- Follows the claim's words (truncated partial period): walk the pattern
accumulating a running sum; the first element whose running-sum-including-it
exceeds `remainder` is truncated to `remainder − sum-so-far` and the rest of
the period is discarded. -/
def specTruncatedPeriod (remainder : ℚ) : List ℚ → ℚ → List ℚ
  | [], _ => []
  | x :: rest, sumSoFar =>
    if sumSoFar + x > remainder then [remainder - sumSoFar]
    else x :: specTruncatedPeriod remainder rest (sumSoFar + x)

/-- Follows the claim's words (whole dasharray): `repeatCount = ⌊reveal/unit⌋`
whole periods, then the truncated partial period for
`remainder = reveal mod unit`, then `[0, total − reveal]` if the truncated
partial period has an even number of entries and `[total − reveal]` if odd. -/
def specDasharray (revealLength totalLength : ℚ) (lines : List ℚ) : List ℚ :=
  let unit := lines.sum
  let repeatCount : ℤ := ⌊revealLength / unit⌋
  let remainder := revealLength - unit * repeatCount
  let truncated := specTruncatedPeriod remainder lines 0
  let tail := if truncated.length % 2 = 0 then [0, totalLength - revealLength]
              else [totalLength - revealLength]
  lineRepeat lines repeatCount ++ truncated ++ tail

/-! ### Pie geometry composition (`Pie.parseDeltaAngle`, `Pie.getComposedData`) -/

/-- The configuration fields of the Pie props that drive the angle
arithmetic of `Pie.getComposedData`. -/
structure PieConfig where
  startAngle : ℚ
  endAngle : ℚ
  minAngle : ℚ
  paddingAngle : ℚ
deriving DecidableEq, Repr

/-- The output of `Pie.parseCoordinateOfPie`.  Its computation uses
`getPercentValue`/`getMaxRadius` from utilities outside `src/`, so the record
is taken as a given input to the composition. -/
structure PieCoordinate where
  cx : ℚ
  cy : ℚ
  innerRadius : ℚ
  outerRadius : ℚ
  maxRadius : ℚ
deriving DecidableEq, Repr

/-- The fields of a composed pie sector (`PieSectorDataItem`) involved in the
angle arithmetic; presentation and tooltip fields are omitted. -/
structure PieSector where
  percent : ℚ
  value : ℚ
  startAngle : ℚ
  endAngle : ℚ
  paddingAngle : ℚ
deriving DecidableEq, Repr

/-- `Pie.parseDeltaAngle`: the signed total sweep, capped at a full circle. -/
def parseDeltaAngle (startAngle endAngle : ℚ) : ℚ :=
  mathSign (endAngle - startAngle) * min |endAngle - startAngle| 360

/-- `notZeroItemCount` of `Pie.getComposedData`: the number of entries whose
extracted value is not 0.  An entry is modelled by its numeric value. -/
def notZeroItemCount (vals : List ℚ) : ℕ :=
  (vals.filter (· ≠ 0)).length

/-- `totalPadingAngle` of `Pie.getComposedData` (sic):
`(absDeltaAngle ≥ 360 ? notZeroItemCount : notZeroItemCount − 1) × paddingAngle`. -/
def totalPaddingAngle (cfg : PieConfig) (vals : List ℚ) : ℚ :=
  let absDelta := |parseDeltaAngle cfg.startAngle cfg.endAngle|
  (if absDelta ≥ 360 then (notZeroItemCount vals : ℚ) else (notZeroItemCount vals : ℚ) - 1) *
    cfg.paddingAngle

/-- `realTotalAngle` of `Pie.getComposedData`:
`absDeltaAngle − notZeroItemCount × minAngle − totalPadingAngle`, with
`minAngle = |props.minAngle|`. -/
def realTotalAngle (cfg : PieConfig) (vals : List ℚ) : ℚ :=
  |parseDeltaAngle cfg.startAngle cfg.endAngle| -
    (notZeroItemCount vals : ℚ) * |cfg.minAngle| - totalPaddingAngle cfg vals

/-- The `pieData.map` of `Pie.getComposedData` laying sectors out sequentially:
the first entry starts at the configured start angle, every later entry starts
at the previous end angle plus signed padding (suppressed for a zero value);
the end angle adds `sign × (minAngle-if-nonzero + percent × realTotalAngle)`. -/
def pieSectorsGo (startAngle sign minA padA realTotal sum : ℚ) :
    List ℚ → Option ℚ → List PieSector
  | [], _ => []
  | v :: rest, prevEnd =>
    let percent := v / sum
    let tempStartAngle :=
      match prevEnd with
      | none => startAngle
      | some e => e + sign * padA * (if v = 0 then 0 else 1)
    let tempEndAngle :=
      tempStartAngle + sign * ((if v = 0 then 0 else minA) + percent * realTotal)
    { percent := percent, value := v, startAngle := tempStartAngle,
      endAngle := tempEndAngle, paddingAngle := sign * padA } ::
      pieSectorsGo startAngle sign minA padA realTotal sum rest (some tempEndAngle)

/-- The result record of `Pie.getComposedData`: `{...coordinate, sectors, data}`
with `sectors` left `undefined` when the value sum is not positive. -/
structure PieComposed where
  coordinate : PieCoordinate
  sectors : Option (List PieSector)
  data : List ℚ
deriving DecidableEq, Repr

/-- `Pie.getComposedData`.  Entries are modelled by their numeric values
(`getValueByDataKey`, outside `src/`, is the identity on them); the
coordinate record stands for `parseCoordinateOfPie`'s output.  An empty
`pieData` makes the source return `null`, modelled as `none`; otherwise
sectors are computed only when `sum > 0`. -/
def pieGetComposedData (cfg : PieConfig) (coordinate : PieCoordinate)
    (vals : List ℚ) : Option PieComposed :=
  if vals = [] then none
  else
    let minA := |cfg.minAngle|
    let deltaAngle := parseDeltaAngle cfg.startAngle cfg.endAngle
    let sum := vals.sum
    let sectors :=
      if sum > 0 then
        some (pieSectorsGo cfg.startAngle (mathSign deltaAngle) minA cfg.paddingAngle
          (realTotalAngle cfg vals) sum vals none)
      else none
    some { coordinate := coordinate, sectors := sectors, data := vals }

/-! ### Line geometry composition (`Line.getComposedData`) -/

/-- The chart layout distinguishing which axis is the category axis. -/
inductive Layout where
  | horizontal
  | vertical
deriving DecidableEq, Repr

/-- A composed line point (`LinePointItem`): a missing data value leaves the
value-axis coordinate `null`. -/
structure LinePoint (α : Type) where
  x : Option ℚ
  y : Option ℚ
  value : Option ℚ
  payload : α
deriving DecidableEq, Repr

/-- The `displayedData.map` of `Line.getComposedData`.
`getCateCoordinateOfLine` and `getValueByDataKey` live in `util/ChartUtils`
outside `src/`; they are abstracted as the parameters `cateX`/`cateY` (the
category-coordinate computation with axis, ticks and band size already
applied, fed the entry and its index) and `extract` (`none` models a
null/undefined value, so `isNil(value) ? null : scale(value)` becomes
`Option.map`). -/
def lineComposePoints {α : Type} (layout : Layout) (xScale yScale : ℚ → ℚ)
    (cateX cateY : α → ℕ → Option ℚ) (extract : α → Option ℚ) :
    List α → ℕ → List (LinePoint α)
  | [], _ => []
  | entry :: rest, index =>
    let value := extract entry
    (match layout with
     | .horizontal =>
       { x := cateX entry index, y := value.map yScale, value := value, payload := entry }
     | .vertical =>
       { x := value.map xScale, y := cateY entry index, value := value, payload := entry }) ::
      lineComposePoints layout xScale yScale cateX cateY extract rest (index + 1)

/-- `Line.getComposedData`: the composed points, in input order (the `offset`
spread of the result is omitted). -/
def lineGetComposedData {α : Type} (layout : Layout) (xScale yScale : ℚ → ℚ)
    (cateX cateY : α → ℕ → Option ℚ) (extract : α → Option ℚ)
    (displayedData : List α) : List (LinePoint α) :=
  lineComposePoints layout xScale yScale cateX cateY extract displayedData 0

/-! ### Correspondence & Interpolation Engine for lines
(`Line.renderCurveWithAnimation`, `prevPoints` branch) -/

/-- A point as interpolated by the animation step.  Coordinates are modelled
as numbers (missing-value points are outside the animation claims); `value`
and `payload` stand for the non-coordinate fields kept by the
`{...entry, x, y}` spread. -/
structure CurvePt (α : Type) where
  x : ℚ
  y : ℚ
  value : Option ℚ
  payload : α
deriving DecidableEq, Repr

/-- One element of the `points.map` of `Line.renderCurveWithAnimation`:
look up the mapped previous point at `⌊index × factor⌋`; interpolate from it
when it exists, else from the synthetic origin `(2×width, height/2)` when
`animateNewValues`, else keep the final position. -/
def lineStepOne {α : Type} (animateNewValues : Bool) (w h t factor : ℚ)
    (prevPoints : List (CurvePt α)) (index : ℕ) (entry : CurvePt α) : CurvePt α :=
  match jsGet prevPoints ⌊(index : ℚ) * factor⌋ with
  | some prev =>
    { entry with x := interpolateNumber prev.x entry.x t,
                 y := interpolateNumber prev.y entry.y t }
  | none =>
    if animateNewValues then
      { entry with x := interpolateNumber (w * 2) entry.x t,
                   y := interpolateNumber (h / 2) entry.y t }
    else
      { entry with x := entry.x, y := entry.y }

/-- The indexed walk of the `points.map` of `Line.renderCurveWithAnimation`. -/
def lineStepGo {α : Type} (animateNewValues : Bool) (w h t factor : ℚ)
    (prevPoints : List (CurvePt α)) : List (CurvePt α) → ℕ → List (CurvePt α)
  | [], _ => []
  | entry :: rest, index =>
    lineStepOne animateNewValues w h t factor prevPoints index entry ::
      lineStepGo animateNewValues w h t factor prevPoints rest (index + 1)

/-- `stepData` of `Line.renderCurveWithAnimation`:
`prevPointsDiffFactor = prevPoints.length / points.length`, then the indexed
walk from index 0. -/
def lineStepData {α : Type} (animateNewValues : Bool) (w h t : ℚ)
    (prevPoints points : List (CurvePt α)) : List (CurvePt α) :=
  lineStepGo animateNewValues w h t
    ((prevPoints.length : ℚ) / (points.length : ℚ)) prevPoints points 0

/-! ### Animation state transitions (`Line.getDerivedStateFromProps`,
`Pie.getDerivedStateFromProps`) -/

/-- The animation-relevant slice of the Line component state.  `undefined`
fields are `none`. -/
structure LineAnimState (α : Type) where
  prevPoints : Option (List (CurvePt α))
  curPoints : Option (List (CurvePt α))
  prevAnimationId : Option ℕ
  totalLength : Option ℚ
deriving DecidableEq, Repr

/-- `Line.getDerivedStateFromProps`, with React's merge semantics applied: a
returned partial state updates only its own fields, and returning `null`
leaves the state unchanged.  The JS reference inequality
`nextProps.points !== prevState.curPoints` is modelled structurally. -/
def lineGetDerivedStateFromProps {α : Type} [DecidableEq α] (nextPoints : List (CurvePt α))
    (nextAnimationId : Option ℕ) (s : LineAnimState α) : LineAnimState α :=
  if nextAnimationId ≠ s.prevAnimationId then
    { s with prevAnimationId := nextAnimationId,
             curPoints := some nextPoints,
             prevPoints := s.curPoints }
  else if some nextPoints ≠ s.curPoints then
    { s with curPoints := some nextPoints }
  else s

/-- The animation-relevant slice of the Pie component state. -/
structure PieAnimState where
  prevSectors : Option (List PieSector)
  curSectors : Option (List PieSector)
  prevAnimationId : Option ℕ
  prevIsAnimationActive : Option Bool
  isAnimationFinished : Option Bool
deriving DecidableEq, Repr

/-- `Pie.getDerivedStateFromProps` with React's merge semantics; the `sectors`
prop may be `undefined`, hence `Option`.  Reference inequality is modelled
structurally. -/
def pieGetDerivedStateFromProps (nextSectors : Option (List PieSector))
    (nextAnimationId : Option ℕ) (nextIsAnimationActive : Bool)
    (s : PieAnimState) : PieAnimState :=
  if s.prevIsAnimationActive ≠ some nextIsAnimationActive then
    { s with prevIsAnimationActive := some nextIsAnimationActive,
             prevAnimationId := nextAnimationId,
             curSectors := nextSectors,
             prevSectors := some [],
             isAnimationFinished := some true }
  else if nextIsAnimationActive = true ∧ nextAnimationId ≠ s.prevAnimationId then
    { s with prevAnimationId := nextAnimationId,
             curSectors := nextSectors,
             prevSectors := s.curSectors,
             isAnimationFinished := some true }
  else if nextSectors ≠ s.curSectors then
    { s with curSectors := nextSectors,
             isAnimationFinished := some true }
  else s

/-! ### Render branch selection (`Line.renderCurve`, `Pie.renderSectors`,
`Pie.renderSectorsStatically`) -/

/-- The outcome of `Line.renderCurve`: either the animated path
(`renderCurveWithAnimation`) or the static rendering of the given points
(`renderCurveStatically`). -/
inductive LineRender (α : Type) where
  | animated : LineRender α
  | staticRender : List (CurvePt α) → LineRender α
deriving DecidableEq

/-- `Line.renderCurve`: branch selection.  Lodash `isEqual` is structural
equality; JS truthiness makes `!prevPoints` mean `prevPoints = none` (an empty
previous array is truthy). -/
def lineRenderCurve {α : Type} [DecidableEq α] (isAnimationActive : Bool)
    (points : List (CurvePt α)) (prevPoints : Option (List (CurvePt α)))
    (totalLength : ℚ) : LineRender α :=
  if isAnimationActive = true ∧ points ≠ [] ∧
      ((prevPoints = none ∧ totalLength > 0) ∨ prevPoints ≠ some points) then
    .animated
  else
    .staticRender points

/-- `Pie.renderSectorsStatically`: each sector maps to a rendered shape, except
that a sector with both angles exactly 0 is skipped (`null`) unless the
sequence has exactly one sector. -/
def renderSectorsStatically (sectors : List PieSector) : List (Option PieSector) :=
  sectors.map fun entry =>
    if entry.startAngle = 0 ∧ entry.endAngle = 0 ∧ sectors.length ≠ 1 then none
    else some entry

/-- The outcome of `Pie.renderSectors`: either the animated path
(`renderSectorsWithAnimation`) or the static rendering. -/
inductive PieRender where
  | animated : PieRender
  | staticRender : List (Option PieSector) → PieRender
deriving DecidableEq, Repr

/-- `Pie.renderSectors`: branch selection.  `!prevSectors` is
`prevSectors = none`; lodash `isEqual` is structural equality. -/
def pieRenderSectors (isAnimationActive : Bool) (sectors : List PieSector)
    (prevSectors : Option (List PieSector)) : PieRender :=
  if isAnimationActive = true ∧ sectors ≠ [] ∧
      (prevSectors = none ∨ prevSectors ≠ some sectors) then
    .animated
  else
    .staticRender (renderSectorsStatically sectors)

/-! ## Helper lemmas -/

theorem jsMod_eq_sub_floor (a b : ℚ) (ha : 0 ≤ a) (hb : 0 < b) :
    jsMod a b = a - b * ⌊a / b⌋ := by
  have h : ¬(a / b < 0) := not_lt.mpr (div_nonneg ha hb.le)
  rw [jsMod, jsTrunc, if_neg h]

theorem jsMod_nonneg (a b : ℚ) (ha : 0 ≤ a) (hb : 0 < b) : 0 ≤ jsMod a b := by
  rw [jsMod_eq_sub_floor a b ha hb]
  have h1 : (⌊a / b⌋ : ℚ) ≤ a / b := Int.floor_le _
  have h2 : b * (⌊a / b⌋ : ℚ) ≤ b * (a / b) := by
    exact mul_le_mul_of_nonneg_left h1 hb.le
  rw [mul_div_cancel₀ a hb.ne'] at h2
  linarith

theorem jsMod_lt (a b : ℚ) (ha : 0 ≤ a) (hb : 0 < b) : jsMod a b < b := by
  rw [jsMod_eq_sub_floor a b ha hb]
  have h1 : a / b < ⌊a / b⌋ + 1 := Int.lt_floor_add_one _
  have h2 : b * (a / b) < b * ((⌊a / b⌋ : ℚ) + 1) := by
    exact mul_lt_mul_of_pos_left h1 hb
  rw [mul_div_cancel₀ a hb.ne'] at h2
  linarith [mul_comm b ((⌊a / b⌋ : ℚ) + 1)]

theorem remainLinesGo_eq_spec (remainder : ℚ) :
    ∀ (l : List ℚ) (s : ℚ), l ≠ [] → remainder < s + l.sum →
      remainLinesGo remainder l s = some (specTruncatedPeriod remainder l s) := by
  intro l
  induction l with
  | nil => intro s h _; exact absurd rfl h
  | cons x rest ih =>
    intro s _ hlt
    by_cases hx : s + x > remainder
    · simp [remainLinesGo, specTruncatedPeriod, hx]
    · have hx' : s + x ≤ remainder := not_lt.mp hx
      have hrest : rest ≠ [] := by
        rintro rfl
        simp only [List.sum_cons, List.sum_nil, add_zero] at hlt
        exact absurd hlt (not_lt.mpr hx')
      have hih := ih (s + x) hrest (by
        have : s + (x :: rest).sum = s + x + rest.sum := by
          rw [List.sum_cons]; ring
        rw [this] at hlt; exact hlt)
      simp [remainLinesGo, specTruncatedPeriod, hx, hih]

theorem mathSign_eq_zero_iff (x : ℚ) : mathSign x = 0 ↔ x = 0 := by
  unfold mathSign
  split_ifs with h1 h2
  · simp [h1]
  · constructor
    · intro h; exact absurd h one_ne_zero
    · intro h; exact absurd h h1
  · constructor
    · intro h; norm_num at h
    · intro h; exact absurd h h1

theorem abs_parseDeltaAngle (s e : ℚ) :
    |parseDeltaAngle s e| = min |e - s| 360 := by
  have hmin : (0 : ℚ) ≤ min |e - s| 360 := le_min (abs_nonneg _) (by norm_num)
  unfold parseDeltaAngle mathSign
  split_ifs with h1 h2
  · simp [h1]
  · rw [one_mul, abs_of_nonneg hmin]
  · rw [neg_one_mul, abs_neg, abs_of_nonneg hmin]

theorem parseDeltaAngle_eq_zero_iff (s e : ℚ) :
    parseDeltaAngle s e = 0 ↔ e - s = 0 := by
  constructor
  · intro h
    by_contra hne
    have habs : |parseDeltaAngle s e| = min |e - s| 360 := abs_parseDeltaAngle s e
    rw [h, abs_zero] at habs
    have h1 : 0 < |e - s| := abs_pos.mpr hne
    have h2 : (0 : ℚ) < min |e - s| 360 := lt_min h1 (by norm_num)
    rw [← habs] at h2
    exact lt_irrefl 0 h2
  · intro h
    unfold parseDeltaAngle
    rw [(mathSign_eq_zero_iff _).mpr h, zero_mul]

theorem abs_mathSign_of_ne (x : ℚ) (h : x ≠ 0) : |mathSign x| = 1 := by
  unfold mathSign
  split_ifs with h1 h2 <;> norm_num
  exact absurd h1 h

theorem pieSectorsGo_sweeps (st sign minA padA rt sum : ℚ) :
    ∀ (vals : List ℚ) (prevEnd : Option ℚ),
      (pieSectorsGo st sign minA padA rt sum vals prevEnd).map
          (fun s => s.endAngle - s.startAngle) =
        vals.map (fun v => sign * ((if v = 0 then 0 else minA) + v / sum * rt)) := by
  intro vals
  induction vals with
  | nil => intro _; rfl
  | cons v rest ih =>
    intro prevEnd
    simp only [pieSectorsGo, List.map_cons, ih, List.cons.injEq, and_true]
    ring

theorem pieSectorsGo_mem (st sign minA padA rt sum : ℚ) :
    ∀ (vals : List ℚ) (prevEnd : Option ℚ) (s : PieSector),
      s ∈ pieSectorsGo st sign minA padA rt sum vals prevEnd →
      ∃ v ∈ vals, s.value = v ∧
        s.endAngle - s.startAngle =
          sign * ((if v = 0 then 0 else minA) + v / sum * rt) := by
  intro vals
  induction vals with
  | nil => intro _ s h; exact absurd h (List.not_mem_nil s)
  | cons v rest ih =>
    intro prevEnd s hs
    rcases List.mem_cons.mp hs with h | h
    · subst h
      refine ⟨v, List.mem_cons_self v rest, rfl, ?_⟩
      simp only
      ring
    · obtain ⟨w, hw, hval, hsweep⟩ := ih _ s h
      exact ⟨w, List.mem_cons_of_mem v hw, hval, hsweep⟩

theorem sum_map_minAngle_ite (minA : ℚ) :
    ∀ vals : List ℚ,
      (vals.map fun v => if v = 0 then (0 : ℚ) else minA).sum =
        (notZeroItemCount vals : ℚ) * minA := by
  intro vals
  induction vals with
  | nil => simp [notZeroItemCount]
  | cons v rest ih =>
    have hcount : notZeroItemCount (v :: rest) =
        if v = 0 then notZeroItemCount rest else notZeroItemCount rest + 1 := by
      unfold notZeroItemCount
      by_cases hv : v = 0
      · simp [List.filter_cons, hv]
      · simp [List.filter_cons, hv]
    by_cases hv : v = 0
    · rw [List.map_cons, List.sum_cons, if_pos hv, zero_add, ih, hcount, if_pos hv]
    · rw [List.map_cons, List.sum_cons, if_neg hv, ih, hcount, if_neg hv]
      push_cast
      ring

theorem sum_map_div_mul (c rt : ℚ) :
    ∀ vals : List ℚ,
      (vals.map fun v => v / c * rt).sum = vals.sum / c * rt := by
  intro vals
  induction vals with
  | nil => simp
  | cons v rest ih =>
    simp only [List.map_cons, List.sum_cons, ih]
    ring

theorem notZeroItemCount_pos (vals : List ℚ)
    (hsum : 0 < vals.sum) : 0 < notZeroItemCount vals := by
  by_contra h
  have hz : notZeroItemCount vals = 0 := Nat.eq_zero_of_not_pos h
  have hfil : vals.filter (fun v => decide (v ≠ 0)) = [] :=
    List.length_eq_zero.mp hz
  have hall : ∀ v ∈ vals, v = 0 := by
    intro v hvmem
    have := List.filter_eq_nil_iff.mp hfil v hvmem
    simpa using this
  have : vals.sum = 0 := List.sum_eq_zero hall
  rw [this] at hsum
  exact lt_irrefl 0 hsum

/-! ## Claim theorems -/

/-- C1 (counterexample): with a negative value present the claimed coverage
equation fails.  For configured angles 0→360, `minAngle = 0`,
`paddingAngle = 0` and values `[−1, 2]` (sum 1 > 0), the composed sectors are
`(0 → −360)` and `(−360 → 360)`, whose absolute sweeps sum to 1080, while
total padding is 0 and `min(|360 − 0|, 360) = 360`. -/
theorem claim1_pie_angle_coverage_counterexample :
    (0 : ℚ) < ([-1, 2] : List ℚ).sum ∧
    pieGetComposedData ⟨0, 360, 0, 0⟩ ⟨0, 0, 0, 0, 0⟩ [-1, 2] =
      some ⟨⟨0, 0, 0, 0, 0⟩,
        some [⟨-1, -1, 0, -360, 0⟩, ⟨2, 2, -360, 360, 0⟩], [-1, 2]⟩ ∧
    (([⟨-1, -1, 0, -360, 0⟩, ⟨2, 2, -360, 360, 0⟩] : List PieSector).map
        (fun s => |s.endAngle - s.startAngle|)).sum +
        totalPaddingAngle ⟨0, 360, 0, 0⟩ [-1, 2] ≠
      min |(360 : ℚ) - 0| 360 := by
  refine ⟨by norm_num, ?_, by norm_num [totalPaddingAngle, parseDeltaAngle,
    mathSign, notZeroItemCount, List.filter]⟩
  norm_num [pieGetComposedData, pieSectorsGo, parseDeltaAngle, mathSign,
    realTotalAngle, totalPaddingAngle, notZeroItemCount, List.filter,
    List.cons_ne_nil]

/-- C1 (amended): for a pie input of non-negative numeric values with positive
sum, non-negative padding angle and non-negative remaining angle budget
(`realTotalAngle ≥ 0`), the sum of `|endAngle − startAngle|` over the composed
sectors plus the total padding equals
`min(|configured endAngle − configured startAngle|, 360)`, and every sector
with a non-zero value has `|endAngle − startAngle| ≥ minAngle`. -/
theorem claim1_pie_angle_coverage :
    ∀ (cfg : PieConfig) (coordinate : PieCoordinate) (vals : List ℚ)
      (res : PieComposed) (secs : List PieSector),
      (∀ v ∈ vals, 0 ≤ v) → 0 < vals.sum → 0 ≤ cfg.paddingAngle →
      0 ≤ realTotalAngle cfg vals →
      pieGetComposedData cfg coordinate vals = some res →
      res.sectors = some secs →
      ((secs.map fun s => |s.endAngle - s.startAngle|).sum +
          totalPaddingAngle cfg vals = min |cfg.endAngle - cfg.startAngle| 360) ∧
      ∀ s ∈ secs, s.value ≠ 0 → |cfg.minAngle| ≤ |s.endAngle - s.startAngle| := by
  intro cfg coord vals res secs hv hsum hpad hrt hres hsecs
  have hne : vals ≠ [] := by
    rintro rfl
    norm_num at hsum
  rw [pieGetComposedData, if_neg hne] at hres
  simp only [Option.some.injEq] at hres
  subst hres
  simp only [if_pos hsum, Option.some.injEq] at hsecs
  have hsecs' : secs = pieSectorsGo cfg.startAngle
      (mathSign (parseDeltaAngle cfg.startAngle cfg.endAngle)) |cfg.minAngle|
      cfg.paddingAngle (realTotalAngle cfg vals) vals.sum vals none := hsecs.symm
  subst hsecs'
  have habs_map : (pieSectorsGo cfg.startAngle
        (mathSign (parseDeltaAngle cfg.startAngle cfg.endAngle)) |cfg.minAngle|
        cfg.paddingAngle (realTotalAngle cfg vals) vals.sum vals none).map
          (fun s => |s.endAngle - s.startAngle|) =
      vals.map (fun v =>
        |mathSign (parseDeltaAngle cfg.startAngle cfg.endAngle) *
          ((if v = 0 then 0 else |cfg.minAngle|) +
            v / vals.sum * realTotalAngle cfg vals)|) := by
    have hcomp : (fun s : PieSector => |s.endAngle - s.startAngle|) =
        (fun q : ℚ => |q|) ∘ (fun s : PieSector => s.endAngle - s.startAngle) := rfl
    rw [hcomp, ← List.map_map, pieSectorsGo_sweeps, List.map_map]
    rfl
  by_cases hzero : cfg.endAngle - cfg.startAngle = 0
  · have hparse : parseDeltaAngle cfg.startAngle cfg.endAngle = 0 :=
      (parseDeltaAngle_eq_zero_iff _ _).mpr hzero
    have hsign0 : mathSign (parseDeltaAngle cfg.startAngle cfg.endAngle) = 0 := by
      rw [hparse]
      exact (mathSign_eq_zero_iff 0).mpr rfl
    have habsD : |parseDeltaAngle cfg.startAngle cfg.endAngle| = 0 := by
      rw [hparse, abs_zero]
    have hsum_zero : ((pieSectorsGo cfg.startAngle
        (mathSign (parseDeltaAngle cfg.startAngle cfg.endAngle)) |cfg.minAngle|
        cfg.paddingAngle (realTotalAngle cfg vals) vals.sum vals none).map
          (fun s => |s.endAngle - s.startAngle|)).sum = 0 := by
      rw [habs_map, hsign0]
      simp
    have hn1 : (1 : ℚ) ≤ (notZeroItemCount vals : ℚ) := by
      exact_mod_cast notZeroItemCount_pos vals hsum
    have hpadval : totalPaddingAngle cfg vals =
        ((notZeroItemCount vals : ℚ) - 1) * cfg.paddingAngle := by
      simp only [totalPaddingAngle, habsD]
      rw [if_neg (by norm_num : ¬((0 : ℚ) ≥ 360))]
    have hpad_nonneg : 0 ≤ totalPaddingAngle cfg vals := by
      rw [hpadval]
      exact mul_nonneg (by linarith) hpad
    have hrt' : realTotalAngle cfg vals =
        0 - (notZeroItemCount vals : ℚ) * |cfg.minAngle| - totalPaddingAngle cfg vals := by
      unfold realTotalAngle
      rw [habsD]
    have hminA_nonneg : (0 : ℚ) ≤ |cfg.minAngle| := abs_nonneg _
    have hnm : (0 : ℚ) ≤ (notZeroItemCount vals : ℚ) * |cfg.minAngle| :=
      mul_nonneg (by linarith) hminA_nonneg
    have hpad0 : totalPaddingAngle cfg vals = 0 := by
      rw [hrt'] at hrt
      linarith
    have hminA0 : |cfg.minAngle| = 0 := by
      rw [hrt', hpad0] at hrt
      nlinarith
    constructor
    · rw [hsum_zero, hpad0, hzero]
      norm_num
    · intro s _ _
      rw [hminA0]
      exact abs_nonneg _
  · have hparse0 : parseDeltaAngle cfg.startAngle cfg.endAngle ≠ 0 := by
      intro h
      exact hzero ((parseDeltaAngle_eq_zero_iff _ _).mp h)
    have habs1 : |mathSign (parseDeltaAngle cfg.startAngle cfg.endAngle)| = 1 :=
      abs_mathSign_of_ne _ hparse0
    have hinner : ∀ v ∈ vals,
        0 ≤ (if v = 0 then 0 else |cfg.minAngle|) + v / vals.sum * realTotalAngle cfg vals := by
      intro v hvm
      have h1 : (0 : ℚ) ≤ if v = 0 then 0 else |cfg.minAngle| := by
        split_ifs
        · exact le_refl 0
        · exact abs_nonneg _
      have h2 : (0 : ℚ) ≤ v / vals.sum * realTotalAngle cfg vals :=
        mul_nonneg (div_nonneg (hv v hvm) hsum.le) hrt
      linarith
    have hptwise : vals.map (fun v =>
        |mathSign (parseDeltaAngle cfg.startAngle cfg.endAngle) *
          ((if v = 0 then 0 else |cfg.minAngle|) +
            v / vals.sum * realTotalAngle cfg vals)|) =
        vals.map (fun v =>
          (if v = 0 then 0 else |cfg.minAngle|) +
            v / vals.sum * realTotalAngle cfg vals) := by
      refine List.map_congr_left ?_
      intro v hvm
      rw [abs_mul, habs1, one_mul, abs_of_nonneg (hinner v hvm)]
    constructor
    · rw [habs_map, hptwise, List.sum_map_add, sum_map_minAngle_ite,
        sum_map_div_mul, div_self hsum.ne']
      unfold realTotalAngle
      rw [abs_parseDeltaAngle]
      ring
    · intro s hs hval
      obtain ⟨v, hvm, hvalv, hsweep⟩ := pieSectorsGo_mem cfg.startAngle
        (mathSign (parseDeltaAngle cfg.startAngle cfg.endAngle)) |cfg.minAngle|
        cfg.paddingAngle (realTotalAngle cfg vals) vals.sum vals none s hs
      have hvne : v ≠ 0 := by
        intro h
        exact hval (hvalv.trans h)
      have hinner' : (0 : ℚ) ≤ |cfg.minAngle| + v / vals.sum * realTotalAngle cfg vals := by
        have := hinner v hvm
        rw [if_neg hvne] at this
        exact this
      have hsweepabs : |s.endAngle - s.startAngle| =
          |cfg.minAngle| + v / vals.sum * realTotalAngle cfg vals := by
        rw [hsweep, if_neg hvne, abs_mul, habs1, one_mul]
        exact abs_of_nonneg hinner'
      rw [hsweepabs]
      have h2 : (0 : ℚ) ≤ v / vals.sum * realTotalAngle cfg vals :=
        mul_nonneg (div_nonneg (hv v hvm) hsum.le) hrt
      linarith

/-- Witness for C1: the amended theorem applied to values `[1, 1, 2]` with
configured angles 0→360, `minAngle = 0`, `paddingAngle = 0`, composing
sectors sweeping 90°, 90° and 180°. -/
theorem claim1_pie_angle_coverage_witness :
    ((∀ v ∈ ([1, 1, 2] : List ℚ), 0 ≤ v) ∧ (0 : ℚ) < ([1, 1, 2] : List ℚ).sum ∧
      (0 : ℚ) ≤ (⟨0, 360, 0, 0⟩ : PieConfig).paddingAngle ∧
      0 ≤ realTotalAngle ⟨0, 360, 0, 0⟩ [1, 1, 2]) ∧
    pieGetComposedData ⟨0, 360, 0, 0⟩ ⟨0, 0, 0, 0, 0⟩ [1, 1, 2] =
      some ⟨⟨0, 0, 0, 0, 0⟩,
        some [⟨1 / 4, 1, 0, 90, 0⟩, ⟨1 / 4, 1, 90, 180, 0⟩, ⟨1 / 2, 2, 180, 360, 0⟩],
        [1, 1, 2]⟩ ∧
    ((([⟨1 / 4, 1, 0, 90, 0⟩, ⟨1 / 4, 1, 90, 180, 0⟩, ⟨1 / 2, 2, 180, 360, 0⟩] :
          List PieSector).map (fun s => |s.endAngle - s.startAngle|)).sum +
        totalPaddingAngle ⟨0, 360, 0, 0⟩ [1, 1, 2] =
      min |(⟨0, 360, 0, 0⟩ : PieConfig).endAngle -
          (⟨0, 360, 0, 0⟩ : PieConfig).startAngle| 360) ∧
    ∀ s ∈ ([⟨1 / 4, 1, 0, 90, 0⟩, ⟨1 / 4, 1, 90, 180, 0⟩, ⟨1 / 2, 2, 180, 360, 0⟩] :
        List PieSector), s.value ≠ 0 →
      |(⟨0, 360, 0, 0⟩ : PieConfig).minAngle| ≤ |s.endAngle - s.startAngle| := by
  have h1 : ∀ v ∈ ([1, 1, 2] : List ℚ), 0 ≤ v := by
    intro v hv
    simp only [List.mem_cons, List.not_mem_nil, or_false] at hv
    rcases hv with rfl | rfl | rfl <;> norm_num
  have h2 : (0 : ℚ) < ([1, 1, 2] : List ℚ).sum := by norm_num
  have h3 : (0 : ℚ) ≤ (⟨0, 360, 0, 0⟩ : PieConfig).paddingAngle := le_refl 0
  have h4 : 0 ≤ realTotalAngle ⟨0, 360, 0, 0⟩ [1, 1, 2] := by
    norm_num [realTotalAngle, parseDeltaAngle, mathSign, totalPaddingAngle,
      notZeroItemCount, List.filter]
  have hcomp : pieGetComposedData ⟨0, 360, 0, 0⟩ ⟨0, 0, 0, 0, 0⟩ [1, 1, 2] =
      some ⟨⟨0, 0, 0, 0, 0⟩,
        some [⟨1 / 4, 1, 0, 90, 0⟩, ⟨1 / 4, 1, 90, 180, 0⟩, ⟨1 / 2, 2, 180, 360, 0⟩],
        [1, 1, 2]⟩ := by
    norm_num [pieGetComposedData, pieSectorsGo, parseDeltaAngle, mathSign,
      realTotalAngle, totalPaddingAngle, notZeroItemCount, List.filter,
      List.cons_ne_nil]
  have hmain := claim1_pie_angle_coverage ⟨0, 360, 0, 0⟩ ⟨0, 0, 0, 0, 0⟩ [1, 1, 2]
    ⟨⟨0, 0, 0, 0, 0⟩,
      some [⟨1 / 4, 1, 0, 90, 0⟩, ⟨1 / 4, 1, 90, 180, 0⟩, ⟨1 / 2, 2, 180, 360, 0⟩],
      [1, 1, 2]⟩
    [⟨1 / 4, 1, 0, 90, 0⟩, ⟨1 / 4, 1, 90, 180, 0⟩, ⟨1 / 2, 2, 180, 360, 0⟩]
    h1 h2 h3 h4 hcomp rfl
  exact ⟨⟨h1, h2, h3, h4⟩, hcomp, hmain.1, hmain.2⟩

/-- C6 (counterexample): with an empty pie input (value sum 0 ≤ 0) the source
returns `null` outright, so no coordinate fields and no data are returned,
contrary to the claim. -/
theorem claim6_zero_sum_counterexample :
    ([] : List ℚ).sum ≤ 0 ∧
    pieGetComposedData ⟨0, 360, 0, 0⟩ ⟨0, 0, 0, 0, 0⟩ [] = none := by
  constructor
  · norm_num
  · simp [pieGetComposedData]

/-- C6 (amended): for a non-empty pie input whose value sum is ≤ 0,
`Pie.getComposedData` returns a result whose `sectors` field is absent while
the coordinate record and the data are still returned; no error is raised
(the function is total). -/
theorem claim6_zero_sum_no_sectors :
    ∀ (cfg : PieConfig) (coordinate : PieCoordinate) (vals : List ℚ),
      vals ≠ [] → vals.sum ≤ 0 →
      pieGetComposedData cfg coordinate vals =
        some { coordinate := coordinate, sectors := none, data := vals } := by
  intro cfg coordinate vals hne hsum
  rw [pieGetComposedData, if_neg hne]
  simp only [Option.some.injEq]
  have h : ¬(vals.sum > 0) := not_lt.mpr hsum
  simp [h]

/-- Witness for C6: the amended theorem applied to values `[0, −1]`. -/
theorem claim6_zero_sum_no_sectors_witness :
    (([0, -1] : List ℚ) ≠ [] ∧ ([0, -1] : List ℚ).sum ≤ 0) ∧
    pieGetComposedData ⟨0, 360, 0, 0⟩ ⟨1, 2, 3, 4, 5⟩ [0, -1] =
      some { coordinate := ⟨1, 2, 3, 4, 5⟩, sectors := none, data := [0, -1] } :=
  ⟨⟨by simp, by norm_num⟩,
    claim6_zero_sum_no_sectors ⟨0, 360, 0, 0⟩ ⟨1, 2, 3, 4, 5⟩ [0, -1]
      (by simp) (by norm_num)⟩

/-- C2: `Line.getStrokeDasharray` with a custom pattern of positive unit
length and a non-negative reveal length computes `repeatCount` whole periods
(`⌊reveal / unit⌋`), then the truncated partial period for the floored
remainder `reveal − unit·⌊reveal/unit⌋` (the first element whose running sum
including it exceeds the remainder is cut to `remainder − sum-so-far` and the
rest of the period discarded), then `[0, total − reveal]` if the truncated
partial period has evenly many entries and `[total − reveal]` if odd; for
pattern `[4, 2]`, totalLength 100, revealLength 27 the repeat count is 4, the
remainder 3, and the dasharray values sum to exactly 100. -/
theorem claim2_stroke_dasharray :
    (∀ (lines : List ℚ) (totalLength revealLength : ℚ),
        lines ≠ [] → 0 < lines.sum → 0 ≤ revealLength →
        getStrokeDasharray revealLength totalLength lines =
          some (specDasharray revealLength totalLength lines)) ∧
    getStrokeDasharray 27 100 [4, 2] = some [4, 2, 4, 2, 4, 2, 4, 2, 3, 73] ∧
    (⌊(27 : ℚ) / ([4, 2] : List ℚ).sum⌋ : ℤ) = 4 ∧
    jsMod 27 ([4, 2] : List ℚ).sum = 3 ∧
    ([4, 2, 4, 2, 4, 2, 4, 2, 3, 73] : List ℚ).sum = 100 := by
  refine ⟨?_, ?_, ?_, ?_, ?_⟩
  · intro lines totalLength revealLength hne hpos hnn
    have hsum0 : lines.sum ≠ 0 := ne_of_gt hpos
    have hmod : jsMod revealLength lines.sum =
        revealLength - lines.sum * ⌊revealLength / lines.sum⌋ :=
      jsMod_eq_sub_floor _ _ hnn hpos
    have hlt : jsMod revealLength lines.sum < lines.sum := jsMod_lt _ _ hnn hpos
    have hgo : remainLinesGo (jsMod revealLength lines.sum) lines 0 =
        some (specTruncatedPeriod (jsMod revealLength lines.sum) lines 0) :=
      remainLinesGo_eq_spec _ lines 0 hne (by rw [zero_add]; exact hlt)
    rw [hmod] at hgo
    simp only [getStrokeDasharray, specDasharray, remainLinesCalc, if_neg hne,
      if_neg hsum0, hmod, hgo, Option.getD_some]
  · norm_num [getStrokeDasharray, generateSimpleStrokeDasharray, remainLinesCalc,
      remainLinesGo, jsMod, jsTrunc, lineRepeat, List.replicate, List.cons_ne_nil]
  · norm_num
  · norm_num [jsMod, jsTrunc]
  · norm_num

/-- Witness for C2: the general part of the theorem applied at pattern
`[4, 2]`, totalLength 100, revealLength 27. -/
theorem claim2_stroke_dasharray_witness :
    (([4, 2] : List ℚ) ≠ [] ∧ (0 : ℚ) < ([4, 2] : List ℚ).sum ∧ (0 : ℚ) ≤ 27) ∧
    getStrokeDasharray 27 100 [4, 2] = some (specDasharray 27 100 [4, 2]) :=
  ⟨⟨by simp, by norm_num, by norm_num⟩,
    claim2_stroke_dasharray.1 [4, 2] 100 27 (by simp) (by norm_num) (by norm_num)⟩

/-- C9: with no custom dash pattern the animated dasharray is
`[revealLength, totalLength − revealLength]` (with `revealLength =
totalLength·t`), and a supplied custom pattern whose elements sum to 0 makes
`Line.getStrokeDasharray` fall back to the same no-pattern dasharray. -/
theorem claim9_simple_dasharray :
    (∀ totalLength t : ℚ,
        revealDasharray none totalLength t =
          some [totalLength * t, totalLength - totalLength * t]) ∧
    (∀ (lines : List ℚ) (totalLength revealLength : ℚ),
        lines ≠ [] → lines.sum = 0 →
        getStrokeDasharray revealLength totalLength lines =
          some (generateSimpleStrokeDasharray totalLength revealLength)) := by
  constructor
  · intro totalLength t
    simp only [revealDasharray, interpolateNumber, generateSimpleStrokeDasharray,
      Option.some.injEq, List.cons.injEq, and_true]
    constructor <;> ring
  · intro lines totalLength revealLength hne hz
    simp only [getStrokeDasharray, if_neg hne, if_pos hz]

/-- Witness for C9: the fallback part applied at pattern `[4, −4]` (sum 0),
totalLength 100, revealLength 27, and the no-pattern part at totalLength 100,
t = 1/2. -/
theorem claim9_simple_dasharray_witness :
    (([4, -4] : List ℚ) ≠ [] ∧ ([4, -4] : List ℚ).sum = 0) ∧
    getStrokeDasharray 27 100 [4, -4] = some (generateSimpleStrokeDasharray 100 27) ∧
    revealDasharray none 100 (1 / 2) = some [100 * (1 / 2), 100 - 100 * (1 / 2)] :=
  ⟨⟨by simp, by norm_num⟩,
    claim9_simple_dasharray.2 [4, -4] 100 27 (by simp) (by norm_num),
    claim9_simple_dasharray.1 100 (1 / 2)⟩

/-- C10: in static sector rendering, when the sector sequence has length other
than 1 a sector whose startAngle and endAngle are both exactly 0 is skipped
(renders `null`); a single-element sequence renders its sector even when both
angles are 0. -/
theorem claim10_zero_angle_sector_skipped :
    (∀ (sectors : List PieSector) (i : ℕ) (hi : i < sectors.length),
        sectors.length ≠ 1 →
        sectors[i].startAngle = 0 → sectors[i].endAngle = 0 →
        (renderSectorsStatically sectors)[i]? = some none) ∧
    ∀ s : PieSector, renderSectorsStatically [s] = [some s] := by
  constructor
  · intro sectors i hi hlen h1 h2
    unfold renderSectorsStatically
    rw [List.getElem?_map, List.getElem?_eq_getElem hi]
    simp only [Option.map_some']
    rw [if_pos ⟨h1, h2, hlen⟩]
  · intro s
    unfold renderSectorsStatically
    simp

/-- Witness for C10: a two-sector list whose first sector has both angles 0 is
skipped at index 0, and the same zero-angle sector alone is rendered. -/
theorem claim10_zero_angle_sector_skipped_witness :
    (([⟨0, 0, 0, 0, 0⟩, ⟨1, 1, 90, 180, 0⟩] : List PieSector).length ≠ 1 ∧
      (renderSectorsStatically [⟨0, 0, 0, 0, 0⟩, ⟨1, 1, 90, 180, 0⟩])[0]? = some none) ∧
    renderSectorsStatically [⟨0, 0, 0, 0, 0⟩] = [some ⟨0, 0, 0, 0, 0⟩] :=
  ⟨⟨by simp,
    claim10_zero_angle_sector_skipped.1 [⟨0, 0, 0, 0, 0⟩, ⟨1, 1, 90, 180, 0⟩] 0
      (by simp) (by simp) rfl rfl⟩,
    claim10_zero_angle_sector_skipped.2 ⟨0, 0, 0, 0, 0⟩⟩

/-- C7: when animation is inactive, or the stored previous geometry is
deep-equal to the incoming one, both the line and the pie renderers bypass the
animated path and render the current geometry statically. -/
theorem claim7_no_animation_bypass :
    (∀ (α : Type) [DecidableEq α] (active : Bool) (points : List (CurvePt α))
        (prevPoints : Option (List (CurvePt α))) (totalLength : ℚ),
        active = false ∨ prevPoints = some points →
        lineRenderCurve active points prevPoints totalLength =
          LineRender.staticRender points) ∧
    ∀ (active : Bool) (sectors : List PieSector)
      (prevSectors : Option (List PieSector)),
      active = false ∨ prevSectors = some sectors →
      pieRenderSectors active sectors prevSectors =
        PieRender.staticRender (renderSectorsStatically sectors) := by
  constructor
  · intro α _ active points prevPoints totalLength h
    rcases h with h | h
    · simp [lineRenderCurve, h]
    · simp [lineRenderCurve, h]
  · intro active sectors prevSectors h
    rcases h with h | h
    · simp [pieRenderSectors, h]
    · simp [pieRenderSectors, h]

/-- Witness for C7: the bypass applied with animation disabled (line) and with
previous sectors deep-equal to the incoming ones (pie). -/
theorem claim7_no_animation_bypass_witness :
    lineRenderCurve false [(⟨0, 0, none, 0⟩ : CurvePt ℚ)] none 5 =
      LineRender.staticRender [(⟨0, 0, none, 0⟩ : CurvePt ℚ)] ∧
    pieRenderSectors true [⟨1, 1, 0, 90, 0⟩] (some [⟨1, 1, 0, 90, 0⟩]) =
      PieRender.staticRender (renderSectorsStatically [⟨1, 1, 0, 90, 0⟩]) :=
  ⟨claim7_no_animation_bypass.1 ℚ false [⟨0, 0, none, 0⟩] none 5 (Or.inl rfl),
    claim7_no_animation_bypass.2 true [⟨1, 1, 0, 90, 0⟩] (some [⟨1, 1, 0, 90, 0⟩])
      (Or.inr rfl)⟩

/-- C5 (counterexample): a geometry change with an unchanged animation token
does NOT move the old current geometry into the previous slot.  With stored
state `prevPoints = none`, `curPoints = some [(0,0)]`, `prevAnimationId =
some 1`, incoming points `[(1,0)]` (different) and animationId `some 1`, the
new state has `curPoints = some [(1,0)]` but `prevPoints` is still `none`,
not the old `curPoints`. -/
theorem claim5_geometry_transition_counterexample :
    some [(⟨1, 0, none, 0⟩ : CurvePt ℚ)] ≠
      (⟨none, some [⟨0, 0, none, 0⟩], some 1, none⟩ : LineAnimState ℚ).curPoints ∧
    (lineGetDerivedStateFromProps [⟨1, 0, none, 0⟩] (some 1)
        (⟨none, some [⟨0, 0, none, 0⟩], some 1, none⟩ : LineAnimState ℚ)).curPoints =
      some [⟨1, 0, none, 0⟩] ∧
    (lineGetDerivedStateFromProps [⟨1, 0, none, 0⟩] (some 1)
        (⟨none, some [⟨0, 0, none, 0⟩], some 1, none⟩ : LineAnimState ℚ)).prevPoints ≠
      (⟨none, some [⟨0, 0, none, 0⟩], some 1, none⟩ : LineAnimState ℚ).curPoints := by
  refine ⟨?_, ?_, ?_⟩
  · simp only [ne_eq, Option.some.injEq, List.cons.injEq, and_true,
      CurvePt.mk.injEq]
    norm_num
  · rw [lineGetDerivedStateFromProps, if_neg (by simp),
      if_pos (by
        simp only [ne_eq, Option.some.injEq, List.cons.injEq, and_true,
          CurvePt.mk.injEq]
        norm_num)]
  · rw [lineGetDerivedStateFromProps, if_neg (by simp),
      if_pos (by
        simp only [ne_eq, Option.some.injEq, List.cons.injEq, and_true,
          CurvePt.mk.injEq]
        norm_num)]
    simp

/-- C5 (amended): the previous-geometry slot takes the old current geometry
exactly on an animation-token change (for the pie also on an
`isAnimationActive` toggle, where it is reset to empty instead); a geometry
change with an unchanged token updates only the current-geometry slot and
leaves the previous slot unchanged.  Stated for both the line and pie derived
state transitions. -/
theorem claim5_geometry_transition :
    (∀ (α : Type) [DecidableEq α] (nextPoints : List (CurvePt α))
        (nextAnimationId : Option ℕ) (s : LineAnimState α),
        (nextAnimationId ≠ s.prevAnimationId →
          (lineGetDerivedStateFromProps nextPoints nextAnimationId s).prevPoints =
              s.curPoints ∧
            (lineGetDerivedStateFromProps nextPoints nextAnimationId s).curPoints =
              some nextPoints) ∧
        (nextAnimationId = s.prevAnimationId → some nextPoints ≠ s.curPoints →
          (lineGetDerivedStateFromProps nextPoints nextAnimationId s).curPoints =
              some nextPoints ∧
            (lineGetDerivedStateFromProps nextPoints nextAnimationId s).prevPoints =
              s.prevPoints)) ∧
    ∀ (nextSectors : Option (List PieSector)) (nextAnimationId : Option ℕ)
      (nextActive : Bool) (s : PieAnimState),
      (s.prevIsAnimationActive = some nextActive → nextActive = true →
        nextAnimationId ≠ s.prevAnimationId →
        (pieGetDerivedStateFromProps nextSectors nextAnimationId nextActive s).prevSectors =
            s.curSectors ∧
          (pieGetDerivedStateFromProps nextSectors nextAnimationId nextActive s).curSectors =
            nextSectors) ∧
      (s.prevIsAnimationActive = some nextActive →
        ¬(nextActive = true ∧ nextAnimationId ≠ s.prevAnimationId) →
        nextSectors ≠ s.curSectors →
        (pieGetDerivedStateFromProps nextSectors nextAnimationId nextActive s).curSectors =
            nextSectors ∧
          (pieGetDerivedStateFromProps nextSectors nextAnimationId nextActive s).prevSectors =
            s.prevSectors) := by
  constructor
  · intro α _ nextPoints nextAnimationId s
    constructor
    · intro hid
      rw [lineGetDerivedStateFromProps, if_pos hid]
      exact ⟨rfl, rfl⟩
    · intro hid hpts
      rw [lineGetDerivedStateFromProps, if_neg (by simp [hid]), if_pos hpts]
      exact ⟨rfl, rfl⟩
  · intro nextSectors nextAnimationId nextActive s
    constructor
    · intro hact htrue hid
      rw [pieGetDerivedStateFromProps, if_neg (by simp [hact]),
        if_pos ⟨htrue, hid⟩]
      exact ⟨rfl, rfl⟩
    · intro hact hno hsec
      rw [pieGetDerivedStateFromProps, if_neg (by simp [hact]), if_neg hno,
        if_pos hsec]
      exact ⟨rfl, rfl⟩

/-- Witness for C5 (amended): the line transition on an animation-token change
(`some 1 → some 2`) snapshots the old current geometry, and on a pure
geometry change (token unchanged) only the current slot moves. -/
theorem claim5_geometry_transition_witness :
    (some 2 ≠ (⟨none, some [⟨0, 0, none, 0⟩], some 1, none⟩ :
        LineAnimState ℚ).prevAnimationId ∧
      (lineGetDerivedStateFromProps [⟨1, 0, none, 0⟩] (some 2)
          (⟨none, some [⟨0, 0, none, 0⟩], some 1, none⟩ : LineAnimState ℚ)).prevPoints =
          (⟨none, some [⟨0, 0, none, 0⟩], some 1, none⟩ :
            LineAnimState ℚ).curPoints ∧
        (lineGetDerivedStateFromProps [⟨1, 0, none, 0⟩] (some 2)
            (⟨none, some [⟨0, 0, none, 0⟩], some 1, none⟩ : LineAnimState ℚ)).curPoints =
          some [⟨1, 0, none, 0⟩]) ∧
    (some [(⟨2, 2, 0, 90, 0⟩ : PieSector)] ≠
        (⟨none, some [⟨1, 1, 0, 90, 0⟩], some 1, some true, none⟩ :
          PieAnimState).curSectors ∧
      (pieGetDerivedStateFromProps (some [⟨2, 2, 0, 90, 0⟩]) (some 1) true
            (⟨none, some [⟨1, 1, 0, 90, 0⟩], some 1, some true, none⟩ :
              PieAnimState)).curSectors = some [⟨2, 2, 0, 90, 0⟩] ∧
        (pieGetDerivedStateFromProps (some [⟨2, 2, 0, 90, 0⟩]) (some 1) true
            (⟨none, some [⟨1, 1, 0, 90, 0⟩], some 1, some true, none⟩ :
              PieAnimState)).prevSectors =
          (⟨none, some [⟨1, 1, 0, 90, 0⟩], some 1, some true, none⟩ :
            PieAnimState).prevSectors) := by
  have hline := (claim5_geometry_transition.1 ℚ [⟨1, 0, none, 0⟩] (some 2)
    ⟨none, some [⟨0, 0, none, 0⟩], some 1, none⟩).1 (by simp)
  have hsecne : some [(⟨2, 2, 0, 90, 0⟩ : PieSector)] ≠
      (⟨none, some [⟨1, 1, 0, 90, 0⟩], some 1, some true, none⟩ :
        PieAnimState).curSectors := by
    simp only [ne_eq, Option.some.injEq, List.cons.injEq, and_true,
      PieSector.mk.injEq]
    norm_num
  have hpie := (claim5_geometry_transition.2 (some [⟨2, 2, 0, 90, 0⟩]) (some 1) true
    ⟨none, some [⟨1, 1, 0, 90, 0⟩], some 1, some true, none⟩).2 rfl
    (by simp) hsecne
  exact ⟨⟨by simp, hline.1, hline.2⟩, ⟨hsecne, hpie.1, hpie.2⟩⟩

theorem interpolateNumber_zero (a b : ℚ) : interpolateNumber a b 0 = a := by
  unfold interpolateNumber
  ring

theorem interpolateNumber_one (a b : ℚ) : interpolateNumber a b 1 = b := by
  unfold interpolateNumber
  ring

theorem lineComposePoints_getElem {α : Type} (layout : Layout) (xs ys : ℚ → ℚ)
    (cx cy : α → ℕ → Option ℚ) (ex : α → Option ℚ) :
    ∀ (l : List α) (i0 i : ℕ),
      (lineComposePoints layout xs ys cx cy ex l i0)[i]? =
        (l[i]?).map (fun entry =>
          match layout with
          | .horizontal =>
            ⟨cx entry (i0 + i), (ex entry).map ys, ex entry, entry⟩
          | .vertical =>
            ⟨(ex entry).map xs, cy entry (i0 + i), ex entry, entry⟩) := by
  intro l
  induction l with
  | nil => intro i0 i; simp [lineComposePoints]
  | cons e rest ih =>
    intro i0 i
    cases i with
    | zero =>
      simp only [lineComposePoints, List.getElem?_cons_zero, Option.map_some',
        Nat.add_zero]
    | succ j =>
      simp only [lineComposePoints, List.getElem?_cons_succ]
      rw [ih (i0 + 1) j]
      have harith : i0 + 1 + j = i0 + (j + 1) := by omega
      rw [harith]

theorem lineComposePoints_length {α : Type} (layout : Layout) (xs ys : ℚ → ℚ)
    (cx cy : α → ℕ → Option ℚ) (ex : α → Option ℚ) :
    ∀ (l : List α) (i0 : ℕ),
      (lineComposePoints layout xs ys cx cy ex l i0).length = l.length := by
  intro l
  induction l with
  | nil => intro _; rfl
  | cons e rest ih =>
    intro i0
    simp only [lineComposePoints, List.length_cons, ih]

theorem lineStepGo_getElem {α : Type} (anv : Bool) (w h t f : ℚ)
    (prev : List (CurvePt α)) :
    ∀ (l : List (CurvePt α)) (i0 i : ℕ),
      (lineStepGo anv w h t f prev l i0)[i]? =
        (l[i]?).map (fun entry => lineStepOne anv w h t f prev (i0 + i) entry) := by
  intro l
  induction l with
  | nil => intro i0 i; simp [lineStepGo]
  | cons e rest ih =>
    intro i0 i
    cases i with
    | zero =>
      simp only [lineStepGo, List.getElem?_cons_zero, Option.map_some',
        Nat.add_zero]
    | succ j =>
      simp only [lineStepGo, List.getElem?_cons_succ]
      rw [ih (i0 + 1) j]
      have harith : i0 + 1 + j = i0 + (j + 1) := by omega
      rw [harith]

theorem lineStepGo_one {α : Type} (anv : Bool) (w h f : ℚ)
    (prev : List (CurvePt α)) :
    ∀ (l : List (CurvePt α)) (i0 : ℕ), lineStepGo anv w h 1 f prev l i0 = l := by
  intro l
  induction l with
  | nil => intro _; rfl
  | cons e rest ih =>
    intro i0
    simp only [lineStepGo, ih, List.cons.injEq, and_true]
    unfold lineStepOne
    cases hj : jsGet prev ⌊(i0 : ℚ) * f⌋ with
    | some p => simp [interpolateNumber_one]
    | none => cases anv <;> simp [interpolateNumber_one]

/-- C4: `Line.getComposedData` yields one point per displayed datum in input
order; with horizontal layout `x` is the category coordinate from the
category-axis computation at the datum and its index, and `y` is `null`
exactly when the extracted value is null and the value-axis scale of the value
otherwise (roles swapped for vertical layout).  For data `[{v:1},{v:3},{v:2}]`,
category ticks at x = 0, 10, 20 and value scale `y(v) = 100 − v·10`, the
points are `[(0, 90), (10, 70), (20, 80)]`. -/
theorem claim4_line_compose_points :
    (∀ (α : Type) (xScale yScale : ℚ → ℚ) (cateX cateY : α → ℕ → Option ℚ)
        (extract : α → Option ℚ) (data : List α),
        (lineGetComposedData Layout.horizontal xScale yScale cateX cateY extract
            data).length = data.length ∧
        (lineGetComposedData Layout.vertical xScale yScale cateX cateY extract
            data).length = data.length ∧
        ∀ (i : ℕ) (hi : i < data.length),
          (lineGetComposedData Layout.horizontal xScale yScale cateX cateY extract
              data)[i]? =
            some ⟨cateX data[i] i, (extract data[i]).map yScale,
              extract data[i], data[i]⟩ ∧
          ((extract data[i]).map yScale = none ↔ extract data[i] = none) ∧
          (lineGetComposedData Layout.vertical xScale yScale cateX cateY extract
              data)[i]? =
            some ⟨(extract data[i]).map xScale, cateY data[i] i,
              extract data[i], data[i]⟩) ∧
    lineGetComposedData Layout.horizontal (fun v => v) (fun v => 100 - v * 10)
        (fun _ i => some (10 * (i : ℚ))) (fun _ i => some (10 * (i : ℚ)))
        (fun v => some v) [1, 3, 2] =
      [⟨some 0, some 90, some 1, 1⟩, ⟨some 10, some 70, some 3, 3⟩,
        ⟨some 20, some 80, some 2, 2⟩] := by
  constructor
  · intro α xScale yScale cateX cateY extract data
    refine ⟨lineComposePoints_length _ _ _ _ _ _ data 0,
      lineComposePoints_length _ _ _ _ _ _ data 0, ?_⟩
    intro i hi
    have hh := lineComposePoints_getElem Layout.horizontal xScale yScale cateX
      cateY extract data 0 i
    have hv := lineComposePoints_getElem Layout.vertical xScale yScale cateX
      cateY extract data 0 i
    rw [List.getElem?_eq_getElem hi] at hh hv
    simp only [Nat.zero_add, Option.map_some'] at hh hv
    refine ⟨hh, ?_, hv⟩
    exact Option.map_eq_none'
  · norm_num [lineGetComposedData, lineComposePoints]

/-- Witness for C4: the general part applied to the example data at index 1. -/
theorem claim4_line_compose_points_witness :
    (1 < ([1, 3, 2] : List ℚ).length) ∧
    (lineGetComposedData Layout.horizontal (fun v => v) (fun v => 100 - v * 10)
        (fun _ i => some (10 * (i : ℚ))) (fun _ i => some (10 * (i : ℚ)))
        (fun v => some v) [1, 3, 2]).length = ([1, 3, 2] : List ℚ).length ∧
    (lineGetComposedData Layout.horizontal (fun v => v) (fun v => 100 - v * 10)
        (fun _ i => some (10 * (i : ℚ))) (fun _ i => some (10 * (i : ℚ)))
        (fun v => some v) [1, 3, 2])[1]? =
      some ⟨some (10 * ((1 : ℕ) : ℚ)), (some (3 : ℚ)).map (fun v => 100 - v * 10),
        some 3, 3⟩ := by
  have h1 : 1 < ([1, 3, 2] : List ℚ).length := by norm_num
  have hmain := (claim4_line_compose_points.1 ℚ (fun v => v) (fun v => 100 - v * 10)
    (fun _ i => some (10 * (i : ℚ))) (fun _ i => some (10 * (i : ℚ)))
    (fun v => some v) [1, 3, 2])
  exact ⟨h1, hmain.1, (hmain.2.2 1 h1).1⟩

/-- C3: in the line animation step with a previous point sequence present,
each current point at index `i` is paired with previous index
`⌊i × |previous| / |current|⌋`; when that previous point exists, x and y are
linearly interpolated between it and the current point at parameter `t`; when
it does not exist and `animateNewValues` is on, x interpolates from
`2 × width` and y from `height / 2`; when it does not exist and
`animateNewValues` is off, the point is emitted unchanged. -/
theorem claim3_step_interpolation :
    ∀ (α : Type) (animateNewValues : Bool) (w h t : ℚ)
      (prevPoints points : List (CurvePt α)) (i : ℕ) (hi : i < points.length),
      (∀ prev, jsGet prevPoints
            ⌊(i : ℚ) * ((prevPoints.length : ℚ) / (points.length : ℚ))⌋ =
          some prev →
        (lineStepData animateNewValues w h t prevPoints points)[i]? =
          some { points[i] with
            x := interpolateNumber prev.x points[i].x t,
            y := interpolateNumber prev.y points[i].y t }) ∧
      (jsGet prevPoints
            ⌊(i : ℚ) * ((prevPoints.length : ℚ) / (points.length : ℚ))⌋ = none →
        animateNewValues = true →
        (lineStepData animateNewValues w h t prevPoints points)[i]? =
          some { points[i] with
            x := interpolateNumber (2 * w) points[i].x t,
            y := interpolateNumber (h / 2) points[i].y t }) ∧
      (jsGet prevPoints
            ⌊(i : ℚ) * ((prevPoints.length : ℚ) / (points.length : ℚ))⌋ = none →
        animateNewValues = false →
        (lineStepData animateNewValues w h t prevPoints points)[i]? =
          some points[i]) := by
  intro α anv w h t prevPoints points i hi
  have hstep : (lineStepData anv w h t prevPoints points)[i]? =
      some (lineStepOne anv w h t
        ((prevPoints.length : ℚ) / (points.length : ℚ)) prevPoints i points[i]) := by
    rw [lineStepData, lineStepGo_getElem, List.getElem?_eq_getElem hi]
    simp only [Nat.zero_add, Option.map_some']
  refine ⟨?_, ?_, ?_⟩
  · intro prev hjs
    rw [hstep]
    unfold lineStepOne
    rw [hjs]
  · intro hjs hanv
    rw [hstep]
    unfold lineStepOne
    rw [hjs, hanv, show w * 2 = 2 * w from mul_comm w 2]
    rfl
  · intro hjs hanv
    rw [hstep]
    unfold lineStepOne
    rw [hjs, hanv]
    rfl

/-- Witness for C3: all three branches at concrete inputs — index 0 of a
two-point list against a one-point previous list (mapped point exists), and
index 0 against an empty previous list with `animateNewValues` on and off. -/
theorem claim3_step_interpolation_witness :
    (0 < ([⟨10, 20, none, 0⟩, ⟨30, 40, none, 0⟩] : List (CurvePt ℚ)).length ∧
      jsGet ([⟨0, 0, none, 0⟩] : List (CurvePt ℚ))
          ⌊((0 : ℕ) : ℚ) * ((([⟨0, 0, none, 0⟩] : List (CurvePt ℚ)).length : ℚ) /
            (([⟨10, 20, none, 0⟩, ⟨30, 40, none, 0⟩] : List (CurvePt ℚ)).length : ℚ))⌋ =
        some ⟨0, 0, none, 0⟩) ∧
    (lineStepData true 100 50 (1 / 2) ([⟨0, 0, none, 0⟩] : List (CurvePt ℚ))
        [⟨10, 20, none, 0⟩, ⟨30, 40, none, 0⟩])[0]? =
      some { (⟨10, 20, none, 0⟩ : CurvePt ℚ) with
        x := interpolateNumber (0 : ℚ) 10 (1 / 2),
        y := interpolateNumber (0 : ℚ) 20 (1 / 2) } ∧
    (lineStepData true 100 50 (1 / 2) ([] : List (CurvePt ℚ))
        [⟨10, 20, none, 0⟩])[0]? =
      some { (⟨10, 20, none, 0⟩ : CurvePt ℚ) with
        x := interpolateNumber (2 * 100 : ℚ) 10 (1 / 2),
        y := interpolateNumber ((50 : ℚ) / 2) 20 (1 / 2) } ∧
    (lineStepData false 100 50 (1 / 2) ([] : List (CurvePt ℚ))
        [⟨10, 20, none, 0⟩])[0]? = some (⟨10, 20, none, 0⟩ : CurvePt ℚ) := by
  have hjs1 : jsGet ([⟨0, 0, none, 0⟩] : List (CurvePt ℚ))
      ⌊((0 : ℕ) : ℚ) * ((([⟨0, 0, none, 0⟩] : List (CurvePt ℚ)).length : ℚ) /
        (([⟨10, 20, none, 0⟩, ⟨30, 40, none, 0⟩] : List (CurvePt ℚ)).length : ℚ))⌋ =
      some ⟨0, 0, none, 0⟩ := by
    norm_num [jsGet]
  have hjs2 : jsGet ([] : List (CurvePt ℚ))
      ⌊((0 : ℕ) : ℚ) * ((([] : List (CurvePt ℚ)).length : ℚ) /
        (([⟨10, 20, none, 0⟩] : List (CurvePt ℚ)).length : ℚ))⌋ = none := by
    norm_num [jsGet]
  refine ⟨⟨by norm_num, hjs1⟩, ?_, ?_, ?_⟩
  · exact (claim3_step_interpolation ℚ true 100 50 (1 / 2)
      ([⟨0, 0, none, 0⟩] : List (CurvePt ℚ))
      [⟨10, 20, none, 0⟩, ⟨30, 40, none, 0⟩] 0 (by norm_num)).1 ⟨0, 0, none, 0⟩ hjs1
  · exact (claim3_step_interpolation ℚ true 100 50 (1 / 2) []
      [⟨10, 20, none, 0⟩] 0 (by norm_num)).2.1 hjs2 rfl
  · exact (claim3_step_interpolation ℚ false 100 50 (1 / 2) []
      [⟨10, 20, none, 0⟩] 0 (by norm_num)).2.2 hjs2 rfl

/-- C8: for a non-empty previous point sequence, the interpolated line output
at `t = 0` equals, pointwise, the previous point selected by nearest-neighbor
index scaling with the current point's non-coordinate fields, and at `t = 1`
it equals the current points exactly. -/
theorem claim8_correspondence_endpoints :
    ∀ (α : Type) (animateNewValues : Bool) (w h : ℚ)
      (prevPoints points : List (CurvePt α)), prevPoints ≠ [] →
      (∀ (i : ℕ) (hi : i < points.length),
        ∃ prev, jsGet prevPoints
            ⌊(i : ℚ) * ((prevPoints.length : ℚ) / (points.length : ℚ))⌋ =
              some prev ∧
          (lineStepData animateNewValues w h 0 prevPoints points)[i]? =
            some { points[i] with x := prev.x, y := prev.y }) ∧
      lineStepData animateNewValues w h 1 prevPoints points = points := by
  intro α anv w h prevPoints points hprev
  constructor
  · intro i hi
    have hp : 0 < prevPoints.length := List.length_pos.mpr hprev
    have hc : 0 < points.length := lt_of_le_of_lt (Nat.zero_le i) hi
    have hpq : (0 : ℚ) < (prevPoints.length : ℚ) := by exact_mod_cast hp
    have hcq : (0 : ℚ) < (points.length : ℚ) := by exact_mod_cast hc
    have hiq : (i : ℚ) < (points.length : ℚ) := by exact_mod_cast hi
    have hnn : (0 : ℚ) ≤ (i : ℚ) * ((prevPoints.length : ℚ) / (points.length : ℚ)) :=
      mul_nonneg (Nat.cast_nonneg i) (div_nonneg hpq.le hcq.le)
    have hk0 : 0 ≤ ⌊(i : ℚ) * ((prevPoints.length : ℚ) / (points.length : ℚ))⌋ :=
      Int.floor_nonneg.mpr hnn
    have hval_lt : (i : ℚ) * ((prevPoints.length : ℚ) / (points.length : ℚ)) <
        (prevPoints.length : ℚ) := by
      have h1 : (i : ℚ) * ((prevPoints.length : ℚ) / (points.length : ℚ)) =
          ((i : ℚ) / (points.length : ℚ)) * (prevPoints.length : ℚ) := by ring
      have h2 : (i : ℚ) / (points.length : ℚ) < 1 := (div_lt_one hcq).mpr hiq
      rw [h1]
      calc ((i : ℚ) / (points.length : ℚ)) * (prevPoints.length : ℚ)
          < 1 * (prevPoints.length : ℚ) := by
            exact mul_lt_mul_of_pos_right h2 hpq
        _ = (prevPoints.length : ℚ) := one_mul _
    have hklt : ⌊(i : ℚ) * ((prevPoints.length : ℚ) / (points.length : ℚ))⌋ <
        (prevPoints.length : ℤ) := by
      rw [Int.floor_lt]
      push_cast
      exact hval_lt
    have hknat : (⌊(i : ℚ) * ((prevPoints.length : ℚ) /
        (points.length : ℚ))⌋).toNat < prevPoints.length := by omega
    have hjs : jsGet prevPoints
        ⌊(i : ℚ) * ((prevPoints.length : ℚ) / (points.length : ℚ))⌋ =
        some prevPoints[(⌊(i : ℚ) * ((prevPoints.length : ℚ) /
          (points.length : ℚ))⌋).toNat] := by
      rw [jsGet, if_neg (not_lt.mpr hk0), List.get?_eq_getElem?,
        List.getElem?_eq_getElem hknat]
    refine ⟨_, hjs, ?_⟩
    have hstep : (lineStepData anv w h 0 prevPoints points)[i]? =
        some (lineStepOne anv w h 0
          ((prevPoints.length : ℚ) / (points.length : ℚ)) prevPoints i points[i]) := by
      rw [lineStepData, lineStepGo_getElem, List.getElem?_eq_getElem hi]
      simp only [Nat.zero_add, Option.map_some']
    rw [hstep]
    unfold lineStepOne
    rw [hjs]
    simp only [interpolateNumber_zero]
  · rw [lineStepData]
    exact lineStepGo_one anv w h _ prevPoints points 0

/-- Witness for C8: the theorem applied to a previous sequence of length 5 and
a current sequence of length 10, with the hypothesis discharged concretely;
the `t = 1` output is the current sequence itself. -/
theorem claim8_correspondence_endpoints_witness :
    ([⟨0, 0, none, 0⟩, ⟨1, 1, none, 0⟩, ⟨2, 2, none, 0⟩, ⟨3, 3, none, 0⟩,
        ⟨4, 4, none, 0⟩] : List (CurvePt ℚ)) ≠ [] ∧
    lineStepData true 100 50 1
        ([⟨0, 0, none, 0⟩, ⟨1, 1, none, 0⟩, ⟨2, 2, none, 0⟩, ⟨3, 3, none, 0⟩,
          ⟨4, 4, none, 0⟩] : List (CurvePt ℚ))
        [⟨10, 0, none, 0⟩, ⟨11, 1, none, 0⟩, ⟨12, 2, none, 0⟩, ⟨13, 3, none, 0⟩,
          ⟨14, 4, none, 0⟩, ⟨15, 5, none, 0⟩, ⟨16, 6, none, 0⟩, ⟨17, 7, none, 0⟩,
          ⟨18, 8, none, 0⟩, ⟨19, 9, none, 0⟩] =
      [⟨10, 0, none, 0⟩, ⟨11, 1, none, 0⟩, ⟨12, 2, none, 0⟩, ⟨13, 3, none, 0⟩,
        ⟨14, 4, none, 0⟩, ⟨15, 5, none, 0⟩, ⟨16, 6, none, 0⟩, ⟨17, 7, none, 0⟩,
        ⟨18, 8, none, 0⟩, ⟨19, 9, none, 0⟩] :=
  ⟨by simp,
    (claim8_correspondence_endpoints ℚ true 100 50
      [⟨0, 0, none, 0⟩, ⟨1, 1, none, 0⟩, ⟨2, 2, none, 0⟩, ⟨3, 3, none, 0⟩,
        ⟨4, 4, none, 0⟩]
      [⟨10, 0, none, 0⟩, ⟨11, 1, none, 0⟩, ⟨12, 2, none, 0⟩, ⟨13, 3, none, 0⟩,
        ⟨14, 4, none, 0⟩, ⟨15, 5, none, 0⟩, ⟨16, 6, none, 0⟩, ⟨17, 7, none, 0⟩,
        ⟨18, 8, none, 0⟩, ⟨19, 9, none, 0⟩] (by simp)).2⟩

end Recharts
